import Mathlib

/-!
Verification of the Local-RAG-Assistant repository: a shallow embedding of
the parent/child document store and retrieval pipeline
(src/step1_retriever_local.py) and of the query driver (src/step2_agent.py),
with theorems settling the spec claims about them.
-/

/-- A langchain `Document`: a unit of text (`page_content`) together with a
metadata mapping.  Metadata values are modelled as the strings they render to
(the code only ever reads them back through string formatting). -/
structure Document where
  page_content : String
  metadata : List (String × String)
  deriving DecidableEq, Repr

/-- The content of one `.pkl` file of `SimpleDiskStore`, i.e. the result of
`pickle.dump` of a `Document`.  `pickle` is an external library; the spec
treats each value as an opaque blob that round-trips exactly, so a stored
blob is either the good serialized `Document` or bytes that `pickle.load`
fails to deserialize (`corrupt`). -/
inductive Entry where
  | good (d : Document)
  | corrupt
  deriving DecidableEq, Repr

/-- `hashlib.md5(key.encode()).hexdigest()` from `_get_path`.  The hash is an
external, deterministic, collision-resistant transform; it is modelled as an
injective deterministic encoding of the key.  No theorem below depends on
anything but its determinism. -/
def md5Hex (s : String) : String := s

/-- `SimpleDiskStore`: the folder it was constructed with, plus the files on
disk under that folder, as a mapping from physical path to blob (most recent
write first, as `List.lookup` finds the first hit). -/
structure SimpleDiskStore where
  folder_path : String
  files : List (String × Entry)
  deriving DecidableEq, Repr

/-- `SimpleDiskStore._get_path`: `os.path.join(self.folder_path, f"{safe_key}.pkl")`
with `safe_key` the md5 hex digest of the key. -/
def SimpleDiskStore.getPath (st : SimpleDiskStore) (key : String) : String :=
  st.folder_path ++ "/" ++ md5Hex key ++ ".pkl"

/-- The body of the loop in `SimpleDiskStore.mget` for one key: if the path
exists and `pickle.load` succeeds the `Document` is returned, otherwise
(missing path, or any exception while opening/loading, caught by the bare
`except Exception`) the result is `None`. -/
def SimpleDiskStore.mgetOne (st : SimpleDiskStore) (key : String) : Option Document :=
  match st.files.lookup (st.getPath key) with
  | some (Entry.good d) => some d
  | some Entry.corrupt => none
  | none => none

/-- `SimpleDiskStore.mget`: starts from `results = []` and appends one result
per key, in key order.  It is a total function into `List (Option Document)`:
the source never lets an exception escape this method. -/
def SimpleDiskStore.mget (st : SimpleDiskStore) (keys : List String) : List (Option Document) :=
  keys.foldl (fun results key => results ++ [st.mgetOne key]) []

/-- `SimpleDiskStore.mset`: for each pair, opens the derived path for writing
and dumps the document, overwriting any previous file at that path (the new
entry shadows older ones under `List.lookup`). -/
def SimpleDiskStore.mset (st : SimpleDiskStore) (key_value_pairs : List (String × Document)) : SimpleDiskStore :=
  key_value_pairs.foldl
    (fun st kv => { st with files := (st.getPath kv.1, Entry.good kv.2) :: st.files }) st

/-- `SimpleDiskStore.mset` with the write I/O made explicit: `fail` says
whether `open(path, "wb")`/`pickle.dump` raises at a given path.  The source
has no try/except here, so the first raised exception aborts the loop and
propagates to the caller; the error value records the failing path. -/
def SimpleDiskStore.msetE (fail : String → Bool) (st : SimpleDiskStore)
    (key_value_pairs : List (String × Document)) : Except String SimpleDiskStore :=
  key_value_pairs.foldlM
    (fun st kv =>
      if fail (st.getPath kv.1) then Except.error (st.getPath kv.1)
      else Except.ok { st with files := (st.getPath kv.1, Entry.good kv.2) :: st.files })
    st

/-- `SimpleDiskStore.mdelete`: removes the file at each derived path when it
exists; deleting a missing key is a no-op. -/
def SimpleDiskStore.mdelete (st : SimpleDiskStore) (keys : List String) : SimpleDiskStore :=
  { st with files := st.files.filter (fun kv => decide (kv.1 ∉ keys.map st.getPath)) }

/-- `SimpleDiskStore.yield_keys`: the source body is exactly `yield from []`
(with the comment that it is only there because the base class requires it),
so the enumeration is empty whatever is stored and whatever the prefix
argument is. -/
def SimpleDiskStore.yield_keys (_st : SimpleDiskStore) (_pre : Option String) : List String :=
  []

/-- A store as freshly constructed by `SimpleDiskStore("./parent_docs_store")`:
the directory is created empty. -/
def emptyStore : SimpleDiskStore :=
  { folder_path := "./parent_docs_store", files := [] }

theorem mget_eq_map (st : SimpleDiskStore) (keys : List String) :
    st.mget keys = keys.map st.mgetOne := by
  have h : ∀ (ks : List String) (acc : List (Option Document)),
      ks.foldl (fun results key => results ++ [st.mgetOne key]) acc = acc ++ ks.map st.mgetOne := by
    intro ks
    induction ks with
    | nil => intro acc; simp
    | cons k ks ih => intro acc; simp [List.foldl_cons, ih]
  simpa using h keys []

/-- Claim C2: storing a single `(key, D)` pair with `mset` and reading it back
with `mget` at the same key returns exactly `[some D]`, for every store state,
key, and document (arbitrary text and metadata): the physical path is
re-derived deterministically from the key, and the blob round-trips the
document exactly. -/
theorem mset_mget_roundtrip (st : SimpleDiskStore) (key : String) (D : Document) :
    (st.mset [(key, D)]).mget [key] = [some D] := by
  simp [SimpleDiskStore.mset, SimpleDiskStore.mget, SimpleDiskStore.mgetOne,
    SimpleDiskStore.getPath, List.lookup]

/-- Claim C3: `mget` returns exactly one result per input key, in input order
(it is the per-key read mapped over the keys, so its length matches the key
list); `mget []` is `[]`; and a key whose derived path has no file resolves to
`none` at its own position without affecting the results of the surrounding
keys. -/
theorem mget_one_result_per_key (st : SimpleDiskStore) :
    (∀ keys : List String, (st.mget keys).length = keys.length ∧ st.mget keys = keys.map st.mgetOne)
    ∧ st.mget [] = []
    ∧ ∀ (ks1 : List String) (k : String) (ks2 : List String),
        st.files.lookup (st.getPath k) = none →
        st.mget (ks1 ++ k :: ks2) = st.mget ks1 ++ none :: st.mget ks2 := by
  refine ⟨fun keys => ⟨?_, mget_eq_map st keys⟩, by simp [SimpleDiskStore.mget], ?_⟩
  · rw [mget_eq_map]; simp
  · intro ks1 k ks2 hk
    rw [mget_eq_map, mget_eq_map, mget_eq_map]
    simp [SimpleDiskStore.mgetOne, hk]

theorem mget_one_result_per_key_witness :
    emptyStore.mget (["a"] ++ "b" :: ["c"]) = emptyStore.mget ["a"] ++ none :: emptyStore.mget ["c"] :=
  (mget_one_result_per_key emptyStore).2.2 ["a"] "b" ["c"] (by rfl)

/-- Claim C4: failure handling in the store is asymmetric.  A stored entry
that exists but fails to deserialize is resolved by `mget` to `none` at its
position (`mget` is a total function into `List (Option Document)`; the bare
`except Exception` in the source swallows the error), whereas a raising write
during `mset` is not caught: the first failing write aborts the batch and the
error propagates to the caller. -/
theorem store_failure_asymmetry (st : SimpleDiskStore) (k : String)
    (hcorrupt : st.files.lookup (st.getPath k) = some Entry.corrupt)
    (fail : String → Bool) (hfail : fail (st.getPath k) = true)
    (d : Document) (rest : List (String × Document)) :
    st.mget [k] = [none]
    ∧ SimpleDiskStore.msetE fail st ((k, d) :: rest) = Except.error (st.getPath k) := by
  constructor
  · rw [mget_eq_map]; simp [SimpleDiskStore.mgetOne, hcorrupt]
  · simp only [SimpleDiskStore.msetE, List.foldlM, hfail, if_true]
    rfl

/-- A store holding one entry at the path of key "k" whose bytes fail to
deserialize. -/
def corruptStore : SimpleDiskStore :=
  { folder_path := "s", files := [("s/k.pkl", Entry.corrupt)] }

theorem store_failure_asymmetry_witness :
    corruptStore.mget ["k"] = [none]
    ∧ SimpleDiskStore.msetE (fun _ => true) corruptStore [("k", ⟨"t", []⟩)]
        = Except.error (corruptStore.getPath "k") :=
  store_failure_asymmetry corruptStore "k" (by rfl) (fun _ => true) (by rfl) ⟨"t", []⟩ []

/-- Claim C5 counterexample: the key "k1" is stored (reading it back yields
its document), yet `yield_keys` does not yield it — the enumeration is empty,
contradicting the claim that every stored key is yielded. -/
theorem yield_keys_misses_stored_key :
    (emptyStore.mset [("k1", ⟨"t", []⟩)]).mgetOne "k1" = some ⟨"t", []⟩
    ∧ "k1" ∉ (emptyStore.mset [("k1", ⟨"t", []⟩)]).yield_keys none := by
  constructor
  · rfl
  · simp [SimpleDiskStore.yield_keys]

/-- Claim C5 (amended): `yield_keys` is a stub kept only to satisfy the base
class: it always returns the empty enumeration, ignoring both the stored keys
and the prefix argument; the enumeration is (trivially) finite and
re-invoking it restarts it at the same empty sequence. -/
theorem yield_keys_always_empty :
    ∀ (st : SimpleDiskStore) (p : Option String), st.yield_keys p = [] :=
  fun _ _ => rfl

/-- Modelled from the spec: the query-time deduplication of the
`ParentDocumentRetriever` (a langchain class; `PolicyLibrarian.__init__`
instantiates it and `PolicyLibrarian.search` delegates to it, but its body is
library code outside this repository).  Spec 4.3 step 2: deduplicate the
ranked parent identifiers while preserving the order of first occurrence —
an identifier is kept at the position of its earliest hit and dropped at
every later hit.  `seen` carries the identifiers already emitted. -/
def dedup_first (seen : List String) : List String → List String
  | [] => []
  | x :: xs => if x ∈ seen then dedup_first seen xs else x :: dedup_first (x :: seen) xs

/-- Modelled from the spec: a child hit carries its parent identifier
embedded as metadata (spec 3, Child Chunk back-reference). -/
def parent_id (d : Document) : String :=
  (d.metadata.lookup "doc_id").getD ""

/-- Modelled from the spec: the `ParentDocumentRetriever` query operation
(spec 4.3), which `PolicyLibrarian.search` invokes: run the nearest-neighbor
`search` over child chunks to get the ranked child hits, map each hit to its
parent identifier, deduplicate preserving first occurrence, batch-fetch the
parents from the docstore, and drop absent fetch results without failing. -/
def retrieve (search : String → List Document) (st : SimpleDiskStore) (query : String) :
    List Document :=
  let ids := dedup_first [] ((search query).map parent_id)
  (st.mget ids).filterMap id

theorem mem_dedup_first (l : List String) :
    ∀ (seen : List String) (x : String), x ∈ dedup_first seen l ↔ x ∈ l ∧ x ∉ seen := by
  induction l with
  | nil => intro seen x; simp [dedup_first]
  | cons a l ih =>
    intro seen x
    by_cases ha : a ∈ seen
    · simp only [dedup_first, if_pos ha, ih]
      constructor
      · exact fun ⟨h1, h2⟩ => ⟨List.mem_cons_of_mem a h1, h2⟩
      · rintro ⟨h1, h2⟩
        rcases List.mem_cons.mp h1 with rfl | h1
        · exact absurd ha h2
        · exact ⟨h1, h2⟩
    · simp only [dedup_first, if_neg ha]
      constructor
      · intro hmem
        rcases List.mem_cons.mp hmem with rfl | hmem
        · exact ⟨List.mem_cons_self x l, ha⟩
        · have h := (ih (a :: seen) x).mp hmem
          exact ⟨List.mem_cons_of_mem a h.1, fun hx => h.2 (List.mem_cons_of_mem a hx)⟩
      · rintro ⟨h1, h2⟩
        rcases List.mem_cons.mp h1 with rfl | h1
        · exact List.mem_cons_self x _
        · by_cases hxa : x = a
          · subst hxa; exact List.mem_cons_self x _
          · refine List.mem_cons_of_mem a ((ih (a :: seen) x).mpr ⟨h1, ?_⟩)
            intro hx
            exact (List.mem_cons.mp hx).elim hxa h2

theorem nodup_dedup_first (l : List String) :
    ∀ seen : List String, (dedup_first seen l).Nodup := by
  induction l with
  | nil => intro seen; simp [dedup_first]
  | cons a l ih =>
    intro seen
    by_cases ha : a ∈ seen
    · simpa [dedup_first, if_pos ha] using ih seen
    · simp only [dedup_first, if_neg ha, List.nodup_cons]
      exact ⟨fun h => ((mem_dedup_first l (a :: seen) a).mp h).2 (List.mem_cons_self a _),
        ih (a :: seen)⟩

theorem sublist_dedup_first (l : List String) :
    ∀ seen : List String, List.Sublist (dedup_first seen l) l := by
  induction l with
  | nil => intro seen; simp [dedup_first]
  | cons a l ih =>
    intro seen
    by_cases ha : a ∈ seen
    · simpa [dedup_first, if_pos ha] using (ih seen).cons a
    · simpa [dedup_first, if_neg ha] using (ih (a :: seen)).cons₂ a

/-- A child-chunk hit whose metadata back-references parent `p`. -/
def childHit (p : String) : Document :=
  { page_content := "", metadata := [("doc_id", p)] }

/-- The parent document stored under identifier `p` in the synthetic store. -/
def parentDoc (p : String) : Document :=
  { page_content := "parent " ++ p, metadata := [] }

/-- A synthetic docstore holding the parents P1, P2, P3 under their
identifiers. -/
def synStore : SimpleDiskStore :=
  emptyStore.mset [("P1", parentDoc "P1"), ("P2", parentDoc "P2"), ("P3", parentDoc "P3")]

/-- A synthetic nearest-neighbor search whose ranked child hits reference the
parents [P2, P1, P2, P3] in that rank order. -/
def synSearch : String → List Document :=
  fun _ => [childHit "P2", childHit "P1", childHit "P2", childHit "P3"]

/-- Claim C1: retrieval maps each ranked child hit to its parent identifier
and deduplicates preserving first occurrence — the deduplicated list has no
duplicates, is a sublist of the ranked hit list (so each parent sits at the
rank of one of its hits, namely its earliest one), and contains exactly the
parents that were hit; on the synthetic index whose hits reference parents
[P2, P1, P2, P3] in rank order, `retrieve` returns the parents in order
[P2, P1, P3]. -/
theorem retrieve_dedup_first_occurrence :
    (∀ hits : List String,
      (dedup_first [] hits).Nodup
      ∧ List.Sublist (dedup_first [] hits) hits
      ∧ ∀ p : String, p ∈ dedup_first [] hits ↔ p ∈ hits)
    ∧ retrieve synSearch synStore "query"
        = [parentDoc "P2", parentDoc "P1", parentDoc "P3"] := by
  refine ⟨fun hits => ⟨nodup_dedup_first hits [], sublist_dedup_first hits [], fun p => ?_⟩, ?_⟩
  · simpa using mem_dedup_first hits [] p
  · decide

/-- The `BATCH_SIZE = 50` constant of `PolicyLibrarian.ingest_folder`. -/
def BATCH_SIZE : Nat := 50

/-- The index sequence of the Python loop `for i in range(start, stop, step)`
for a positive step, written with explicit fuel so that it is structurally
recursive; `pyRange` supplies fuel `stop - start`, which covers every
iteration of a positive-step range. -/
def pyRangeAux : Nat → Nat → Nat → Nat → List Nat
  | 0, _, _, _ => []
  | fuel + 1, i, stop, step => if i < stop then i :: pyRangeAux fuel (i + step) stop step else []

/-- `range(start, stop, step)` for a positive step. -/
def pyRange (start stop step : Nat) : List Nat :=
  pyRangeAux (stop - start) start stop step

/-- The batches taken by `ingest_folder` for one loaded source document:
`for i in range(0, total_pages, BATCH_SIZE): batch = docs[i : i + BATCH_SIZE]`,
one `add_documents` call per batch (`docs[i : i + n]` is `(docs.drop i).take n`). -/
def PolicyLibrarian.batches (docs : List Document) : List (List Document) :=
  (pyRange 0 docs.length BATCH_SIZE).map (fun i => (docs.drop i).take BATCH_SIZE)

/-- Modelled from the spec: `add_documents` is called with `ids=None`, and the
retriever (langchain library code, outside this repository) then generates a
fresh unique identifier per parent chunk (spec 4.3, ingestion step 2).
Freshness across calls is modelled by threading a counter: a call that
produces `n` parent chunks consumes identifiers `c, c+1, ..., c+n-1`.
`ingest_ids counts c` is the per-call identifier lists over a whole ingestion
run whose successive calls produce `counts` parent chunks. -/
def ingest_ids : List Nat → Nat → List (List Nat)
  | [], _ => []
  | n :: rest, c => List.range' c n :: ingest_ids rest (c + n)

theorem pyRangeAux_join_batches (docs : List Document) :
    ∀ (fuel i : Nat), docs.length ≤ i + fuel →
      ((pyRangeAux fuel i docs.length BATCH_SIZE).map
        (fun j => (docs.drop j).take BATCH_SIZE)).flatten = docs.drop i := by
  intro fuel
  induction fuel with
  | zero =>
    intro i h
    simp only [pyRangeAux, List.map_nil, List.flatten_nil]
    exact (List.drop_eq_nil_iff.mpr (by omega)).symm
  | succ fuel ih =>
    intro i h
    by_cases hi : i < docs.length
    · simp only [pyRangeAux, if_pos hi, List.map_cons, List.flatten_cons]
      rw [ih (i + BATCH_SIZE) (by have hB : BATCH_SIZE = 50 := rfl; omega)]
      have hdd : docs.drop (i + BATCH_SIZE) = (docs.drop i).drop BATCH_SIZE := by
        rw [List.drop_drop]
      rw [hdd, List.take_append_drop]
    · simp only [pyRangeAux, if_neg hi, List.map_nil, List.flatten_nil]
      exact (List.drop_eq_nil_iff.mpr (by omega)).symm

theorem pyRangeAux_length (stop : Nat) :
    ∀ (fuel i : Nat), stop ≤ i + fuel →
      (pyRangeAux fuel i stop BATCH_SIZE).length = (stop - i + BATCH_SIZE - 1) / BATCH_SIZE := by
  intro fuel
  induction fuel with
  | zero =>
    intro i h
    simp only [pyRangeAux, List.length_nil, BATCH_SIZE]
    omega
  | succ fuel ih =>
    intro i h
    by_cases hi : i < stop
    · simp only [pyRangeAux, if_pos hi, List.length_cons]
      rw [ih (i + BATCH_SIZE) (by have hB : BATCH_SIZE = 50 := rfl; omega)]
      simp only [BATCH_SIZE]
      omega
    · simp only [pyRangeAux, if_neg hi, List.length_nil, BATCH_SIZE]
      omega

theorem ingest_ids_join (counts : List Nat) :
    ∀ c : Nat, (ingest_ids counts c).flatten = List.range' c counts.sum := by
  induction counts with
  | nil => intro c; simp [ingest_ids]
  | cons n rest ih =>
    intro c
    simp only [ingest_ids, List.flatten_cons, ih (c + n), List.sum_cons]
    have h := List.range'_append c n rest.sum 1
    simp only [Nat.one_mul] at h
    rw [h, Nat.add_comm rest.sum n]

/-- A concrete 120-page loaded document (each page a `Document`). -/
def docs120 : List Document :=
  List.replicate 120 { page_content := "", metadata := [] }

/-- Claim C6: for every loaded source document, `ingest_folder` makes exactly
ceil(N/50) `add_documents` calls over its N pages: the batches are contiguous
in-order slices of at most `BATCH_SIZE = 50` pages whose concatenation is
exactly the page list (each page appears in exactly one call); for the
120-page document the batch sizes are [50, 50, 20]; and the per-call parent
identifier lists of a run are disjoint — their concatenation has no
duplicates. -/
theorem ingest_folder_batching :
    (∀ docs : List Document,
      (PolicyLibrarian.batches docs).length = (docs.length + BATCH_SIZE - 1) / BATCH_SIZE
      ∧ (PolicyLibrarian.batches docs).flatten = docs
      ∧ ∀ b ∈ PolicyLibrarian.batches docs, b.length ≤ BATCH_SIZE)
    ∧ (PolicyLibrarian.batches docs120).map List.length = [50, 50, 20]
    ∧ ∀ (counts : List Nat) (c : Nat), ((ingest_ids counts c).flatten).Nodup := by
  refine ⟨fun docs => ⟨?_, ?_, ?_⟩, by decide, fun counts c => ?_⟩
  · rw [PolicyLibrarian.batches, List.length_map, pyRange,
      pyRangeAux_length docs.length (docs.length - 0) 0 (by omega)]
    simp
  · have h := pyRangeAux_join_batches docs (docs.length - 0) 0 (by omega)
    rw [List.drop_zero] at h
    exact h
  · intro b hb
    rcases List.mem_map.mp hb with ⟨i, _, rfl⟩
    exact List.length_take_le BATCH_SIZE (docs.drop i)
  · rw [ingest_ids_join counts c]
    exact List.nodup_range' c counts.sum

theorem ingest_folder_batching_witness :
    ([{ page_content := "", metadata := [] }] : List Document).length ≤ BATCH_SIZE :=
  (ingest_folder_batching.1 [{ page_content := "", metadata := [] }]).2.2
    [{ page_content := "", metadata := [] }] (by decide)

/-- `doc.page_content.replace("\n", " ")` from `BankComplianceAgent.format_docs`:
a single-character pattern replaced by a single character acts independently
on each character of the text. -/
def flattenNewlines (s : String) : String :=
  ⟨s.data.map fun c => if c = '\n' then ' ' else c⟩

/-- The block appended to `formatted_text` for one document in the loop body
of `BankComplianceAgent.format_docs`: source filename (metadata
`source_file`, default "Unknown"), page (metadata `page`, default "N/A"), and
the flattened text, framed by the fixed start/end delimiter lines. -/
def doc_block (doc : Document) : String :=
  "--- DOCUMENT START ---\nSOURCE: " ++ (doc.metadata.lookup "source_file").getD "Unknown"
    ++ " (Page " ++ (doc.metadata.lookup "page").getD "N/A"
    ++ ")\nCONTENT: " ++ flattenNewlines doc.page_content
    ++ "\n--- DOCUMENT END ---\n\n"

/-- `BankComplianceAgent.format_docs`: starts from `formatted_text = ""` and
appends one block per retrieved document, in input order. -/
def format_docs (docs : List Document) : String :=
  docs.foldl (fun formatted_text doc => formatted_text ++ doc_block doc) ""

/-- The fixed message `ask` returns when retrieval finds no documents. -/
def NO_RESULTS_MSG : String :=
  "❌ I searched the database but could not find any relevant documents regarding this topic."

/-- The fixed head of the message `ask` returns when the language-model call
raises; the caught exception rendering is appended after it. -/
def OLLAMA_ERR_HEAD : String :=
  "❌ Ollama Error: Is Ollama running? Run \x27ollama serve\x27 in a separate terminal. Details: "

/-- `BankComplianceAgent.ask`: retrieve, and if nothing came back return the
no-results message; otherwise format the context and invoke the
prompt-template/LLM/parser chain, catching any exception from the invocation
and turning it into the Ollama error message.  The external chain is the
`llm` oracle, taking the formatted context and the question and either
returning a response or raising (rendered as its `Except.error` string).
`ask` is a total function into `String`: no exception escapes it. -/
def ask (search : String → List Document) (llm : String → String → Except String String)
    (query : String) : String :=
  let docs := search query
  if docs.isEmpty then
    NO_RESULTS_MSG
  else
    let context_text := format_docs docs
    match llm context_text query with
    | Except.ok response => response
    | Except.error e => OLLAMA_ERR_HEAD ++ e

theorem no_results_ne_ollama_err (e : String) :
    NO_RESULTS_MSG ≠ OLLAMA_ERR_HEAD ++ e := by
  intro h
  have hd : NO_RESULTS_MSG.data = OLLAMA_ERR_HEAD.data ++ e.data := by
    rw [← String.data_append OLLAMA_ERR_HEAD e]
    exact congrArg String.data h
  have h2 : NO_RESULTS_MSG.data[2]? = (OLLAMA_ERR_HEAD.data ++ e.data)[2]? := by rw [hd]
  rw [List.getElem?_append_left (by decide)] at h2
  exact absurd h2 (by decide)

/-- Claim C7: when retrieval returns no documents, `ask` does not raise (it is
a total function) and returns the fixed "could not find" message, which
differs from every system-failure message the LLM branch can produce. -/
theorem ask_empty_retrieval (search : String → List Document)
    (llm : String → String → Except String String) (query : String)
    (h : search query = []) :
    ask search llm query = NO_RESULTS_MSG
    ∧ ∀ e : String, NO_RESULTS_MSG ≠ OLLAMA_ERR_HEAD ++ e := by
  refine ⟨?_, no_results_ne_ollama_err⟩
  simp [ask, h]

theorem ask_empty_retrieval_witness :
    ask (fun _ => []) (fun _ _ => Except.ok "unused") "query" = NO_RESULTS_MSG :=
  (ask_empty_retrieval (fun _ => []) (fun _ _ => Except.ok "unused") "query" rfl).1

/-- Claim C8: when the language-model invocation raises, `ask` catches it at
its boundary and returns the Ollama error message built from the exception,
distinct from the no-results message; `ask` is a total function into
`String`, so the exception is never propagated to the interactive loop. -/
theorem ask_llm_failure (search : String → List Document)
    (llm : String → String → Except String String) (query e : String)
    (hdocs : search query ≠ [])
    (hllm : llm (format_docs (search query)) query = Except.error e) :
    ask search llm query = OLLAMA_ERR_HEAD ++ e
    ∧ OLLAMA_ERR_HEAD ++ e ≠ NO_RESULTS_MSG := by
  refine ⟨?_, fun h => no_results_ne_ollama_err e h.symm⟩
  rw [ask]
  simp only [List.isEmpty_iff, hdocs, if_false, hllm]

theorem ask_llm_failure_witness :
    ask (fun _ => [{ page_content := "", metadata := [] }]) (fun _ _ => Except.error "down")
        "query" = OLLAMA_ERR_HEAD ++ "down" :=
  (ask_llm_failure (fun _ => [{ page_content := "", metadata := [] }])
    (fun _ _ => Except.error "down") "query" "down" (by decide) rfl).1

theorem string_join_cons (x : String) (l : List String) :
    String.join (x :: l) = x ++ String.join l := by
  apply String.ext
  simp [String.join_eq, String.data_append]

theorem format_docs_eq_join (docs : List Document) :
    format_docs docs = String.join (docs.map doc_block) := by
  have h : ∀ (ds : List Document) (acc : String),
      ds.foldl (fun formatted_text doc => formatted_text ++ doc_block doc) acc
        = acc ++ String.join (ds.map doc_block) := by
    intro ds
    induction ds with
    | nil => intro acc; simp [String.join, String.append_empty]
    | cons d ds ih =>
      intro acc
      rw [List.foldl_cons, ih (acc ++ doc_block d), List.map_cons, string_join_cons,
        String.append_assoc]
  have h0 := h docs ""
  rwa [String.empty_append] at h0

/-- Claim C9: `format_docs` returns the concatenation, in input order, of one
labeled block per document — each block carrying the source filename, the
page, and the flattened text between the fixed start/end delimiters — and the
flattening replaces every newline character, so the rendered content part of
a block is a single line. -/
theorem format_docs_labeled_blocks :
    (∀ docs : List Document, format_docs docs = String.join (docs.map doc_block))
    ∧ ∀ (s : String) (c : Char), c ∈ (flattenNewlines s).data → c ≠ '\n' := by
  refine ⟨format_docs_eq_join, fun s c hc => ?_⟩
  simp only [flattenNewlines, List.mem_map] at hc
  obtain ⟨a, _, ha⟩ := hc
  intro hcn
  rw [hcn] at ha
  by_cases h : a = '\n' <;> simp [h] at ha

theorem format_docs_labeled_blocks_witness : (' ' : Char) ≠ '\n' :=
  format_docs_labeled_blocks.2 "a\nb" ' ' (by decide)

/-- Claim C10: when retrieval returns no documents, `ask` returns its fixed
no-results string and the language-model chain is never invoked — the result
is identical under every oracle for the chain, so generation (and the
formatting feeding it) cannot influence, and is not needed to produce, the
answer. -/
theorem ask_no_docs_skips_generation (search : String → List Document) (query : String)
    (h : search query = []) :
    ∀ llm llm2 : String → String → Except String String,
      ask search llm query = NO_RESULTS_MSG ∧ ask search llm query = ask search llm2 query := by
  intro llm llm2
  constructor <;> simp [ask, h]

theorem ask_no_docs_skips_generation_witness :
    ask (fun _ => []) (fun _ _ => Except.error "boom") "query" = NO_RESULTS_MSG
    ∧ ask (fun _ => []) (fun _ _ => Except.error "boom") "query"
        = ask (fun _ => []) (fun _ _ => Except.ok "answer") "query" :=
  ask_no_docs_skips_generation (fun _ => []) "query" rfl
    (fun _ _ => Except.error "boom") (fun _ _ => Except.ok "answer")
